import Mathlib

/-!
Verification of the `httpprobe.py` probing engine.

The Python source is shallowly embedded below.  Strings and byte
buffers are modelled as `List Char`, wall-clock durations as `ℚ`, the
per-worker socket behaviour as an explicit `World` record (what the
network would answer at each blocking call), and the worker/coordinator
control flow as total Lean functions over those records.
-/

namespace HttpProbe

/-- Model of Python's substring test used to build `str.find`:
`leadsWith pat s` holds iff `s` starts with `pat`. -/
def leadsWith : List Char → List Char → Bool
  | [], _ => true
  | _ :: _, [] => false
  | p :: ps, c :: cs => p == c && leadsWith ps cs

theorem leadsWith_iff (p : List Char) : ∀ s, leadsWith p s = true ↔ ∃ t, s = p ++ t := by
  induction p with
  | nil => intro s; simp [leadsWith]
  | cons a ps ih =>
    intro s
    cases s with
    | nil => simp [leadsWith]
    | cons c cs =>
      simp only [leadsWith, Bool.and_eq_true, beq_iff_eq, ih cs]
      constructor
      · rintro ⟨rfl, t, rfl⟩; exact ⟨t, rfl⟩
      · rintro ⟨t, h⟩
        injection h with h1 h2
        exact ⟨h1.symm, t, h2⟩

/-- Index of the first occurrence of `pat` in a list, scanning left to
right exactly as Python's `str.find`/`bytes.find` does (`none` when the
pattern never occurs). -/
def findSub (pat : List Char) : List Char → Option Nat
  | [] => if pat.isEmpty then some 0 else none
  | c :: rest =>
    if leadsWith pat (c :: rest) then some 0
    else Option.map (· + 1) (findSub pat rest)

/-- Python's `s.find(pat)`: first index of `pat` in `s`, `-1` when absent. -/
def pyFind (s pat : List Char) : Int :=
  match findSub pat s with
  | some i => (i : Int)
  | none => -1

theorem findSub_some (pat : List Char) :
    ∀ s i, findSub pat s = some i →
      leadsWith pat (s.drop i) = true ∧ (∀ j, j < i → leadsWith pat (s.drop j) = false) ∧
      i ≤ s.length := by
  intro s
  induction s with
  | nil =>
    intro i h
    simp only [findSub] at h
    by_cases hp : pat.isEmpty
    · simp only [hp, if_true, Option.some.injEq] at h
      subst h
      rcases pat with _ | ⟨a, ps⟩
      · exact ⟨rfl, by omega, by simp⟩
      · simp at hp
    · simp [hp] at h
  | cons c rest ih =>
    intro i h
    simp only [findSub] at h
    by_cases hl : leadsWith pat (c :: rest) = true
    · simp only [hl, if_true, Option.some.injEq] at h
      subst h
      exact ⟨hl, by omega, by simp⟩
    · rw [if_neg hl] at h
      rcases hfs : findSub pat rest with _ | i'
      · rw [hfs] at h; simp at h
      · rw [hfs] at h
        simp only [Option.map_some', Option.some.injEq] at h
        subst h
        obtain ⟨h1, h2, h3⟩ := ih i' hfs
        refine ⟨h1, ?_, by simpa using h3⟩
        intro j hj
        cases j with
        | zero => simpa using Bool.eq_false_iff.mpr hl
        | succ j' =>
          have : j' < i' := by omega
          simpa using h2 j' this

theorem findSub_none (pat : List Char) (hp : pat ≠ []) :
    ∀ s, findSub pat s = none → ∀ j, leadsWith pat (s.drop j) = false := by
  intro s
  induction s with
  | nil =>
    intro _ j
    rcases pat with _ | ⟨a, ps⟩
    · exact absurd rfl hp
    · simp [leadsWith]
  | cons c rest ih =>
    intro h j
    simp only [findSub] at h
    by_cases hl : leadsWith pat (c :: rest) = true
    · simp [hl] at h
    · rw [if_neg hl] at h
      rcases hfs : findSub pat rest with _ | i'
      · cases j with
        | zero => simpa using Bool.eq_false_iff.mpr hl
        | succ j' => simpa using ih hfs j'
      · rw [hfs] at h; simp at h

/-- Segment separator used by the source: `raw.split('; ')`. -/
def splitSemiSpace : List Char → List (List Char)
  | [] => [[]]
  | ';' :: ' ' :: rest => [] :: splitSemiSpace rest
  | c :: rest =>
    match splitSemiSpace rest with
    | [] => [[c]]
    | seg :: segs => (c :: seg) :: segs

/-- The literal pattern `'http://'` searched for by `prepare_urls`. -/
def httpPat : List Char := ['h', 't', 't', 'p', ':', '/', '/']

/-- Per-segment normalization from `prepare_urls`:
`pos = r.find('http://'); r[pos+7:] if pos != -1 else r`. -/
def normSeg (r : List Char) : List Char :=
  let pos := pyFind r httpPat
  if pos ≠ -1 then r.drop (pos.toNat + 7) else r

/-- `prepare_urls` (source lines 116-125): split the raw argument on
`'; '` and strip the first `http://` occurrence of each segment. -/
def prepare_urls (raw : List Char) : List (List Char) :=
  (splitSemiSpace raw).map normSeg

/-- Modelled from the spec's words for the Target Normalizer: a segment
that contains the literal substring `http://` is replaced by the
substring starting just after the first such occurrence through the end
of the segment; any other segment is kept unchanged. -/
def specSeg (seg out : List Char) : Prop :=
  (∃ pre post, seg = pre ++ httpPat ++ post ∧ out = post ∧
    ∀ pre' post', seg = pre' ++ httpPat ++ post' → pre.length ≤ pre'.length)
  ∨ ((¬ ∃ pre post, seg = pre ++ httpPat ++ post) ∧ out = seg)

theorem leadsWith_of_append (pat pre post : List Char) :
    leadsWith pat ((pre ++ pat ++ post).drop pre.length) = true := by
  rw [List.append_assoc, List.drop_left]
  exact (leadsWith_iff pat (pat ++ post)).mpr ⟨post, rfl⟩

theorem normSeg_spec (seg : List Char) : specSeg seg (normSeg seg) := by
  unfold normSeg pyFind
  rcases hfs : findSub httpPat seg with _ | i
  · right
    constructor
    · rintro ⟨pre, post, hseg⟩
      have := findSub_none httpPat (by decide) seg hfs pre.length
      rw [hseg] at this
      rw [leadsWith_of_append] at this
      exact Bool.true_eq_false ▸ this
    · simp
  · left
    obtain ⟨h1, h2, h3⟩ := findSub_some httpPat seg i hfs
    obtain ⟨t, ht⟩ := (leadsWith_iff httpPat (seg.drop i)).mp h1
    have hseg : seg = seg.take i ++ httpPat ++ t := by
      conv_lhs => rw [← List.take_append_drop i seg, ht]
      rw [List.append_assoc]
    have hdrop : seg.drop (i + 7) = t := by
      have h7 : httpPat.length = 7 := rfl
      have : seg.drop (i + 7) = (seg.drop i).drop 7 := by
        rw [List.drop_drop, Nat.add_comm]
      rw [this, ht, ← h7, List.drop_left]
    refine ⟨seg.take i, t, hseg, ?_, ?_⟩
    · have hne : ((i : Int) ≠ -1) := by omega
      rw [if_pos hne]
      simpa using hdrop
    · intro pre' post' hseg'
      rw [List.length_take]
      have hle : min i seg.length = i := Nat.min_eq_left h3
      rw [hle]
      by_contra hlt
      push_neg at hlt
      have := h2 pre'.length hlt
      rw [hseg'] at this
      rw [leadsWith_of_append] at this
      exact Bool.true_eq_false ▸ this

/-- C5: the Target Normalizer splits its input on `'; '` and maps each
segment independently; a segment containing `http://` becomes the
verbatim tail just after the first occurrence (so later occurrences are
untouched), any other segment is kept as-is, and order, count and
duplicates are preserved (`Forall₂` pairs the i-th segment with the
i-th output). -/
theorem c5_normalizer_refines_spec (raw : List Char) :
    List.Forall₂ specSeg (splitSemiSpace raw) (prepare_urls raw) ∧
    (prepare_urls raw).length = (splitSemiSpace raw).length := by
  have key : ∀ l : List (List Char), List.Forall₂ specSeg l (l.map normSeg) := by
    intro l
    induction l with
    | nil => exact List.Forall₂.nil
    | cons a t ih => exact List.Forall₂.cons (normSeg_spec a) ih
  refine ⟨key _, ?_⟩
  simp [prepare_urls]

/-- Python's `round` to an integer: nearest integer, ties to even. -/
def pyRound (x : ℚ) : ℤ :=
  if x - ⌊x⌋ < 1 / 2 then ⌊x⌋
  else if 1 / 2 < x - ⌊x⌋ then ⌊x⌋ + 1
  else if ⌊x⌋ % 2 = 0 then ⌊x⌋ else ⌊x⌋ + 1

/-- Python's `round(x, 3)`. -/
def round3 (x : ℚ) : ℚ := (pyRound (1000 * x) : ℚ) / 1000

theorem pyRound_sub_abs (x : ℚ) : |(pyRound x : ℚ) - x| ≤ 1 / 2 := by
  have hfl : (⌊x⌋ : ℚ) ≤ x := Int.floor_le x
  have hfu : x < ⌊x⌋ + 1 := Int.lt_floor_add_one x
  unfold pyRound
  split_ifs with h1 h2 h3
  · rw [abs_le]; constructor <;> push_cast <;> linarith
  · rw [abs_le]; constructor <;> push_cast <;> linarith
  · rw [abs_le]; constructor <;> push_cast <;> linarith
  · rw [abs_le]; constructor <;> push_cast <;> linarith

theorem round3_add (a b : ℚ) :
    |round3 a + round3 b - round3 (a + b)| ≤ 1 / 1000 := by
  have hA := pyRound_sub_abs (1000 * a)
  have hB := pyRound_sub_abs (1000 * b)
  have hC := pyRound_sub_abs (1000 * (a + b))
  set A := pyRound (1000 * a) with hAdef
  set B := pyRound (1000 * b) with hBdef
  set C := pyRound (1000 * (a + b)) with hCdef
  have hsum : |(A : ℚ) + B - C| ≤ 3 / 2 := by
    have : (A : ℚ) + B - C =
        ((A : ℚ) - 1000 * a) + ((B : ℚ) - 1000 * b) - ((C : ℚ) - 1000 * (a + b)) := by
      ring
    rw [this]
    calc |((A : ℚ) - 1000 * a) + ((B : ℚ) - 1000 * b) - ((C : ℚ) - 1000 * (a + b))|
        ≤ |((A : ℚ) - 1000 * a) + ((B : ℚ) - 1000 * b)| + |(C : ℚ) - 1000 * (a + b)| :=
          abs_sub _ _
      _ ≤ |(A : ℚ) - 1000 * a| + |(B : ℚ) - 1000 * b| + |(C : ℚ) - 1000 * (a + b)| := by
          have := abs_add ((A : ℚ) - 1000 * a) ((B : ℚ) - 1000 * b)
          linarith
      _ ≤ 3 / 2 := by linarith
  have hint : |A + B - C| ≤ 1 := by
    by_contra hcon
    push_neg at hcon
    have h2 : (2 : ℤ) ≤ |A + B - C| := by omega
    have : ((2 : ℤ) : ℚ) ≤ ((|A + B - C| : ℤ) : ℚ) := by exact_mod_cast h2
    rw [Int.cast_abs] at this
    push_cast at this
    linarith
  have hq : |(A : ℚ) + B - C| ≤ 1 := by
    have : ((|A + B - C| : ℤ) : ℚ) ≤ 1 := by exact_mod_cast hint
    rw [Int.cast_abs] at this
    push_cast at this
    linarith [this]
  unfold round3
  have : (A : ℚ) / 1000 + (B : ℚ) / 1000 - (C : ℚ) / 1000 = ((A : ℚ) + B - C) / 1000 := by
    ring
  rw [← hAdef, ← hBdef, ← hCdef, this, abs_div]
  rw [show |(1000 : ℚ)| = 1000 from abs_of_pos (by norm_num)]
  rw [div_le_div_iff (by norm_num) (by norm_num)]
  linarith

/-- Outcome of the `client.connect((server, 80))` call in a given run. -/
inductive ConnectRes
  | ok (tcpT : ℚ)
  | gaierr
  | timeout
  | oserr
deriving DecidableEq

/-- Outcome of the `client.send(...)` call in a given run. -/
inductive SendRes
  | ok
  | timeout
  | oserr
deriving DecidableEq

/-- One answer of a `client.recv(4096)` call: a data chunk (possibly
empty, when the peer closed the connection), a `socket.timeout`, or
another `OSError`. -/
inductive RecvEv
  | chunk (data : List Char)
  | timeout
  | oserror
deriving DecidableEq

/-- Everything the environment decides during one `measure_times` call:
whether `socket.socket` succeeds, what `connect` and `send` do, the
scripted sequence of `recv` results, the elapsed times the clock would
report, and the identity parameters. -/
structure World where
  createOk : Bool
  connect : ConnectRes
  send : SendRes
  recvs : List RecvEv
  httpT : ℚ
  server : List Char
  tid : List Char
deriving DecidableEq

/-- The success row `measure_times` builds (source lines 80-82), with the
`round(_, 3)` calls applied to the measured durations. -/
structure Outcome where
  tid : List Char
  server : List Char
  request : List Char
  tcp_success : Bool
  tcp_time : ℚ
  http_time : ℚ
  total_time : ℚ
  pagesize : Nat
  is_success : Bool
  response : List Char
deriving DecidableEq

/-- A message placed on the queue: a full result row, or the
FailureMarker `[None]`. -/
inductive Msg
  | outcome (o : Outcome)
  | failure
deriving DecidableEq

/-- The completion markers searched for on each chunk. -/
def htmlLower : List Char := ['<', '/', 'h', 't', 'm', 'l', '>']

/-- Upper-case variant of the completion marker. -/
def htmlUpper : List Char := ['<', '/', 'H', 'T', 'M', 'L', '>']

/-- The loop-exit test of source line 73, kept verbatim:
`if chunk.find(b'</html>') or chunk.find(b'</HTML>') != -1`.  Python
evaluates this as `(find1 != 0) or (find2 != -1)` because the bare
`find1` is tested for truthiness, and `-1` is truthy. -/
def breakCond (chunk : List Char) : Bool :=
  (pyFind chunk htmlLower != 0) || (pyFind chunk htmlUpper != -1)

/-- The spec's detection rule: a completion marker is present somewhere
in the chunk. -/
def markerPresent (chunk : List Char) : Bool :=
  (pyFind chunk htmlLower != -1) || (pyFind chunk htmlUpper != -1)

/-- Result of the `while True: chunk = client.recv(4096) ...` loop
(source lines 69-76): a break with success, a raised exception, or — a
model artifact — the scripted recv answers running out while the real
loop would still be blocking in `recv`. -/
inductive LoopRes
  | success (pagesize : Nat) (response : List Char)
  | timeout (pagesize : Nat) (response : List Char)
  | oserr (pagesize : Nat) (response : List Char)
  | hang (pagesize : Nat) (response : List Char)
deriving DecidableEq

/-- The chunked read loop of source lines 69-76. -/
def readLoop : List RecvEv → Nat → List Char → LoopRes
  | [], ps, resp => LoopRes.hang ps resp
  | RecvEv.chunk d :: rest, ps, resp =>
    let ps' := ps + d.length
    let resp' := resp ++ d
    if breakCond d then LoopRes.success ps' resp' else readLoop rest ps' resp'
  | RecvEv.timeout :: _, ps, resp => LoopRes.timeout ps resp
  | RecvEv.oserror :: _, ps, resp => LoopRes.oserr ps resp

/-- The request text of source lines 52-53. -/
def httpRequest (server : List Char) : List Char :=
  ("GET / HTTP/1.1\r\nHost: ".toList) ++ server ++
    ("\r\nUser-Agent: Chrome/50.0.2661.102\r\n\r\n".toList)

/-- `http_request.replace('\r\n', '\\r\\n')` from source line 80. -/
def escapeCRLF : List Char → List Char
  | [] => []
  | '\r' :: '\n' :: rest => '\\' :: 'r' :: '\\' :: 'n' :: escapeCRLF rest
  | c :: rest => c :: escapeCRLF rest

/-- The row built on the success path of `measure_times`. -/
def successOutcome (w : World) (tcpT : ℚ) (ps : Nat) (resp : List Char) : Outcome :=
  { tid := w.tid
    server := w.server
    request := escapeCRLF (httpRequest w.server)
    tcp_success := true
    tcp_time := round3 tcpT
    http_time := round3 w.httpT
    total_time := round3 (tcpT + w.httpT)
    pagesize := ps
    is_success := true
    response := resp }

/-- Observable effects of one `measure_times` call (source lines 33-106):
the message placed on the queue (if any), whether the request was sent,
whether a socket existed, how many `close()` calls ran on it, whether an
exception escaped the handlers (killing the thread), and whether the
model's recv script ran dry. -/
structure WResult where
  msg : Option Msg
  sentRequest : Bool
  socketCreated : Bool
  closeCalls : Nat
  uncaughtError : Bool
  hung : Bool
deriving DecidableEq

/-- Shallow embedding of `measure_times`.  Branch notes, traced from the
Python semantics:
when `socket.socket` raises, the `except OSError` clause at line 95 is
the first match (`socket.gaierror`/`socket.timeout`/`socket.error` are
all `OSError` or subclasses, and the dedicated `except socket.error`
clause at line 101 sits after `except OSError`, so it is unreachable);
that handler's `client.close()` hits an unbound local and raises before
`q.put`, and the `finally` close raises again, so the thread dies with
no message and no close of any socket.  On every handled failure the
handler closes once and `finally` closes again; on success only
`finally` closes. -/
def measure_times (w : World) : WResult :=
  if w.createOk then
    match w.connect with
    | ConnectRes.gaierr =>
      { msg := some Msg.failure, sentRequest := false, socketCreated := true
        closeCalls := 2, uncaughtError := false, hung := false }
    | ConnectRes.timeout =>
      { msg := some Msg.failure, sentRequest := false, socketCreated := true
        closeCalls := 2, uncaughtError := false, hung := false }
    | ConnectRes.oserr =>
      { msg := some Msg.failure, sentRequest := false, socketCreated := true
        closeCalls := 2, uncaughtError := false, hung := false }
    | ConnectRes.ok tcpT =>
      match w.send with
      | SendRes.timeout =>
        { msg := some Msg.failure, sentRequest := true, socketCreated := true
          closeCalls := 2, uncaughtError := false, hung := false }
      | SendRes.oserr =>
        { msg := some Msg.failure, sentRequest := true, socketCreated := true
          closeCalls := 2, uncaughtError := false, hung := false }
      | SendRes.ok =>
        match readLoop w.recvs 0 [] with
        | LoopRes.success ps resp =>
          { msg := some (Msg.outcome (successOutcome w tcpT ps resp))
            sentRequest := true, socketCreated := true
            closeCalls := 1, uncaughtError := false, hung := false }
        | LoopRes.timeout _ _ =>
          { msg := some Msg.failure, sentRequest := true, socketCreated := true
            closeCalls := 2, uncaughtError := false, hung := false }
        | LoopRes.oserr _ _ =>
          { msg := some Msg.failure, sentRequest := true, socketCreated := true
            closeCalls := 2, uncaughtError := false, hung := false }
        | LoopRes.hang _ _ =>
          { msg := none, sentRequest := true, socketCreated := true
            closeCalls := 0, uncaughtError := false, hung := true }
  else
    { msg := none, sentRequest := false, socketCreated := false
      closeCalls := 0, uncaughtError := true, hung := false }

/-- Number of messages one worker invocation places on the queue. -/
def msgCount (r : WResult) : Nat :=
  match r.msg with
  | some _ => 1
  | none => 0

/-- Whether the queued message (if any) is a success row. -/
def isSuccessMsg : Option Msg → Bool
  | some (Msg.outcome o) => o.is_success
  | _ => false

/-- The `http_time` field of the queued message, when it is a row. -/
def msgHttpTime : Option Msg → Option ℚ
  | some (Msg.outcome o) => some o.http_time
  | _ => none

/-- Model artifact detector: the recv script ran dry. -/
def isHangRes : LoopRes → Bool
  | LoopRes.hang _ _ => true
  | _ => false

/-- Worker run in which the only received chunk is `"x"`, with no
completion marker anywhere. -/
def w1 : World :=
  ⟨true, ConnectRes.ok 0, SendRes.ok, [RecvEv.chunk ['x']], 0, [], []⟩

/-- C1: falsified on the code.  The loop-exit test of line 73 fires on
the chunk `"x"` even though neither marker occurs in it (its `find` is
`-1`, which Python treats as truthy), so the worker emits a success row
whose body contains no marker; conversely a chunk that starts with
`</html>` (find = 0, falsy) and has no `</HTML>` does not stop the
loop. -/
theorem c1_marker_detection_falsified :
    breakCond ['x'] = true ∧ markerPresent ['x'] = false ∧
    breakCond htmlLower = false ∧ markerPresent htmlLower = true ∧
    (measure_times w1).msg = some (Msg.outcome (successOutcome w1 0 1 ['x'])) ∧
    (successOutcome w1 0 1 ['x']).is_success = true := by
  refine ⟨by decide, by decide, by decide, by decide, rfl, rfl⟩

/-- Worker run in which socket creation itself fails. -/
def w2 : World :=
  ⟨false, ConnectRes.oserr, SendRes.ok, [], 0, [], []⟩

/-- C2 counterexample: an invocation whose `socket.socket` call raises
places no message at all on the queue (the `except OSError` handler
crashes on the unbound `client` before reaching `q.put`). -/
theorem c2_counterexample :
    msgCount (measure_times w2) = 0 ∧ msgCount (measure_times w2) ≠ 1 := by
  exact ⟨rfl, by decide⟩

/-- C2 as amended: every invocation in which socket creation succeeds
(and whose recv script does not run dry, the model's totality side
condition) places exactly one message — a row or the FailureMarker — on
the queue. -/
theorem c2_amended_one_message (w : World) (h1 : w.createOk = true)
    (h2 : isHangRes (readLoop w.recvs 0 []) = false) :
    msgCount (measure_times w) = 1 := by
  rcases w with ⟨c, cn, sd, rv, ht, sv, td⟩
  simp only at h1 h2
  subst h1
  simp only [measure_times, if_pos]
  cases cn with
  | gaierr => rfl
  | timeout => rfl
  | oserr => rfl
  | ok tcpT =>
    cases sd with
    | timeout => rfl
    | oserr => rfl
    | ok =>
      rcases hl : readLoop rv 0 [] with ⟨ps, resp⟩ | ⟨ps, resp⟩ | ⟨ps, resp⟩ | ⟨ps, resp⟩ <;>
        simp only [hl] <;> first
        | rfl
        | (rw [hl] at h2; simp [isHangRes] at h2)

/-- Worker run with a successful connect and send, then a recv that
times out. -/
def w2w : World :=
  ⟨true, ConnectRes.ok 0, SendRes.ok, [RecvEv.timeout], 0, [], []⟩

/-- C2 witness: a concrete invocation placing exactly one message. -/
theorem c2_witness : msgCount (measure_times w2w) = 1 :=
  c2_amended_one_message w2w rfl rfl

/-- Worker run that connects, sends, and then the peer stays silent
until the socket timeout fires. -/
def w4 : World :=
  ⟨true, ConnectRes.ok 0, SendRes.ok, [RecvEv.timeout], 0, [], []⟩

/-- C4 counterexample: when the TCP connect succeeds but the first recv
times out, the worker does not emit any partial outcome row — the
`except socket.timeout` branch queues the bare FailureMarker. -/
theorem c4_counterexample :
    (measure_times w4).msg = some Msg.failure ∧
    ¬ ∃ o : Outcome, (measure_times w4).msg = some (Msg.outcome o) := by
  refine ⟨rfl, ?_⟩
  rintro ⟨o, h⟩
  have hf : (measure_times w4).msg = some Msg.failure := rfl
  rw [hf] at h
  simp at h

/-- C4 as amended: a probe that connects and sends but whose peer never
responds before the socket timeout fires emits the FailureMarker `[None]`
(after having sent the request), not a partial outcome. -/
theorem c4_amended_timeout_yields_marker (w : World) (t : ℚ) (rest : List RecvEv)
    (h1 : w.createOk = true) (h2 : w.connect = ConnectRes.ok t)
    (h3 : w.send = SendRes.ok) (h4 : w.recvs = RecvEv.timeout :: rest) :
    (measure_times w).msg = some Msg.failure ∧ (measure_times w).sentRequest = true := by
  rcases w with ⟨c, cn, sd, rv, ht, sv, td⟩
  simp only at h1 h2 h3 h4
  subst h1; subst h2; subst h3; subst h4
  exact ⟨rfl, rfl⟩

/-- C4 witness: the concrete timed-out probe yields the marker. -/
theorem c4_witness :
    (measure_times w4).msg = some Msg.failure ∧ (measure_times w4).sentRequest = true :=
  c4_amended_timeout_yields_marker w4 0 [] rfl rfl rfl rfl

/-- C8: a probe whose hostname resolution fails (the `connect` call
raises `socket.gaierror`) queues the FailureMarker and never reaches the
`send` call. -/
theorem c8_gaierror_no_send (w : World) (h1 : w.createOk = true)
    (h2 : w.connect = ConnectRes.gaierr) :
    (measure_times w).msg = some Msg.failure ∧ (measure_times w).sentRequest = false := by
  rcases w with ⟨c, cn, sd, rv, ht, sv, td⟩
  simp only at h1 h2
  subst h1; subst h2
  exact ⟨rfl, rfl⟩

/-- Worker run with a failing name resolution. -/
def w8 : World :=
  ⟨true, ConnectRes.gaierr, SendRes.ok, [], 0, [], []⟩

/-- C8 witness: concrete resolution failure. -/
theorem c8_witness :
    (measure_times w8).msg = some Msg.failure ∧ (measure_times w8).sentRequest = false :=
  c8_gaierror_no_send w8 rfl rfl

/-- C9: in every queued success row, the recorded total equals the sum
of the recorded (independently rounded) parts up to `1e-3`. -/
theorem c9_total_time_sum (w : World) (o : Outcome)
    (h : (measure_times w).msg = some (Msg.outcome o)) :
    |o.tcp_time + o.http_time - o.total_time| ≤ 1 / 1000 := by
  rcases w with ⟨c, cn, sd, rv, ht, sv, td⟩
  by_cases hc : c = true
  · subst hc
    simp only [measure_times, if_pos] at h
    cases cn with
    | gaierr => simp at h
    | timeout => simp at h
    | oserr => simp at h
    | ok tcpT =>
      cases sd with
      | timeout => simp at h
      | oserr => simp at h
      | ok =>
        rcases hl : readLoop rv 0 [] with ⟨ps, resp⟩ | ⟨ps, resp⟩ | ⟨ps, resp⟩ | ⟨ps, resp⟩ <;>
          rw [hl] at h <;> simp only [] at h
        · have ho : o = successOutcome ⟨true, ConnectRes.ok tcpT, SendRes.ok, rv, ht, sv, td⟩ tcpT ps resp := by
            have := Option.some.inj h
            exact (Msg.outcome.inj this).symm
          subst ho
          simpa [successOutcome] using round3_add tcpT ht
        · simp at h
        · simp at h
        · simp at h
  · have hc' : c = false := by
      cases c
      · rfl
      · exact absurd rfl hc
    subst hc'
    simp [measure_times] at h

/-- Worker run for the C9 witness: instant success on one chunk. -/
def w9 : World :=
  ⟨true, ConnectRes.ok 0, SendRes.ok, [RecvEv.chunk ['x']], 0, [], []⟩

/-- C9 witness: the concrete success row satisfies the bound. -/
theorem c9_witness :
    |(successOutcome w9 0 1 ['x']).tcp_time + (successOutcome w9 0 1 ['x']).http_time -
      (successOutcome w9 0 1 ['x']).total_time| ≤ 1 / 1000 :=
  c9_total_time_sum w9 (successOutcome w9 0 1 ['x']) rfl

theorem breakCond_nil : breakCond [] = true := by decide

theorem readLoop_reaches_empty (pre : List RecvEv)
    (hpre : ∀ e ∈ pre, ∃ d, e = RecvEv.chunk d ∧ breakCond d = false) :
    ∀ rest ps resp, ∃ ps' resp',
      readLoop (pre ++ RecvEv.chunk [] :: rest) ps resp = LoopRes.success ps' resp' := by
  induction pre with
  | nil =>
    intro rest ps resp
    exact ⟨ps + 0, resp ++ [], rfl⟩
  | cons e pre' ih =>
    intro rest ps resp
    obtain ⟨d, rfl, hbc⟩ := hpre e (List.mem_cons_self e pre')
    have hpre' : ∀ e ∈ pre', ∃ d, e = RecvEv.chunk d ∧ breakCond d = false := by
      intro e' he'
      exact hpre e' (List.mem_cons_of_mem _ he')
    obtain ⟨ps', resp', h⟩ := ih hpre' rest (ps + d.length) (resp ++ d)
    refine ⟨ps', resp', ?_⟩
    simp only [List.cons_append, readLoop, hbc, if_neg, Bool.false_eq_true,
      not_false_iff]
    exact h

/-- C10: when some recv returns an empty chunk (the peer closed the
connection without ever sending a marker) and the loop actually reaches
it, the loop stops right there with `is_success = True` and an
`http_time` recorded — the closed connection is treated as a success,
not a failure, and reading does not continue. -/
theorem c10_empty_chunk_success (w : World) (t : ℚ) (pre rest : List RecvEv)
    (h1 : w.createOk = true) (h2 : w.connect = ConnectRes.ok t)
    (h3 : w.send = SendRes.ok) (h4 : w.recvs = pre ++ RecvEv.chunk [] :: rest)
    (h5 : ∀ e ∈ pre, ∃ d, e = RecvEv.chunk d ∧ breakCond d = false) :
    isSuccessMsg (measure_times w).msg = true ∧
    msgHttpTime (measure_times w).msg = some (round3 w.httpT) := by
  rcases w with ⟨c, cn, sd, rv, ht, sv, td⟩
  simp only at h1 h2 h3 h4
  subst h1; subst h2; subst h3; subst h4
  obtain ⟨ps', resp', hloop⟩ := readLoop_reaches_empty pre h5 rest 0 []
  simp only [measure_times, if_pos, hloop]
  exact ⟨rfl, rfl⟩

/-- Worker run whose first recv reports the peer closing the
connection. -/
def w10 : World :=
  ⟨true, ConnectRes.ok 0, SendRes.ok, [RecvEv.chunk []], 0, [], []⟩

/-- C10 witness: the concrete closed-connection probe succeeds. -/
theorem c10_witness :
    isSuccessMsg (measure_times w10).msg = true ∧
    msgHttpTime (measure_times w10).msg = some (round3 (0 : ℚ)) :=
  c10_empty_chunk_success w10 0 [] [] rfl rfl rfl rfl
    (by intro e he; exact absurd he (List.not_mem_nil e))

/-- Worker run where `socket.socket` itself raises. -/
def w7 : World :=
  ⟨false, ConnectRes.oserr, SendRes.ok, [], 0, [], []⟩

/-- C7: evaluation at the failing input.  When socket creation fails, no
socket exists, yet the code does attempt `client.close()` (in the
`except OSError` handler and again in `finally`), which raises
`UnboundLocalError`: the thread dies with an uncaught exception, zero
sockets are closed, and nothing is queued — contradicting the claim that
the cleanup on this path attempts nothing and raises nothing. -/
theorem c7_create_failure_eval :
    (measure_times w7).socketCreated = false ∧
    (measure_times w7).closeCalls = 0 ∧
    (measure_times w7).uncaughtError = true ∧
    (measure_times w7).msg = none :=
  ⟨rfl, rfl, rfl, rfl⟩

/-- One field of a CSV row; `CsvField.none` models Python's `None`
(which `csv.writer` renders as an empty cell). -/
inductive CsvField
  | none
  | str (s : List Char)
  | nat (n : Nat)
  | rat (q : ℚ)
deriving DecidableEq

/-- The Python list a worker actually `q.put`s: the FailureMarker is the
literal `[None]`, a success is the ten-element row of lines 80-82. -/
def toRow : Msg → List CsvField
  | Msg.failure => [CsvField.none]
  | Msg.outcome o =>
    [CsvField.str o.tid, CsvField.str o.server, CsvField.str o.request,
     CsvField.nat (if o.tcp_success then 1 else 0), CsvField.rat o.tcp_time,
     CsvField.rat o.http_time, CsvField.rat o.total_time, CsvField.nat o.pagesize,
     CsvField.nat (if o.is_success then 1 else 0), CsvField.str o.response]

/-- Python's `list.insert(i, x)`. -/
def pyInsert (l : List CsvField) (i : Nat) (x : CsvField) : List CsvField :=
  l.take i ++ x :: l.drop i

/-- The body of the drain loop (source lines 172-176): label every
non-marker result with the iteration number (position 0) and the
iteration start timestamp (position 2), then write the row — and write
the marker `[None]` as-is. -/
def drainStep (i : Nat) (ts : List Char) (m : Msg) : List CsvField :=
  let result := toRow m
  if result ≠ [CsvField.none] then
    pyInsert (pyInsert result 0 (CsvField.nat i)) 2 (CsvField.str ts)
  else result

/-- The rows `write_to_csv` appends while draining the queued messages
of one iteration. -/
def drainRows (i : Nat) (ts : List Char) : List Msg → List (List CsvField)
  | [] => []
  | m :: rest => drainStep i ts m :: drainRows i ts rest

/-- Number of marker rows (`[None]`) among written rows. -/
def markerRowCount (rows : List (List CsvField)) : Nat :=
  rows.countP (fun r => decide (r = [CsvField.none]))

/-- Number of FailureMarkers among drained messages. -/
def failureCount (msgs : List Msg) : Nat :=
  msgs.countP (fun m => decide (m = Msg.failure))

/-- C3 counterexample: an iteration whose two targets both fail writes
two rows (the `[None]` markers) to the sink, not zero —
`write_to_csv(out_csv, result)` runs unconditionally on line 176. -/
theorem c3_counterexample :
    drainRows 0 [] [Msg.failure, Msg.failure] = [[CsvField.none], [CsvField.none]] ∧
    (drainRows 0 [] [Msg.failure, Msg.failure]).length ≠ 0 := by
  exact ⟨by decide, by decide⟩

theorem drainStep_outcome_ne_marker (i : Nat) (ts : List Char) (o : Outcome) :
    drainStep i ts (Msg.outcome o) ≠ [CsvField.none] := by
  simp [drainStep, toRow, pyInsert]

/-- C3 as amended: the drain writes exactly one row per drained message;
each FailureMarker is itself written as the minimal row `[None]`
(without iteration labels) rather than being skipped, so an all-failure
iteration writes one marker row per failure and zero outcome rows, and
every non-marker row comes from an outcome. -/
theorem c3_amended_drain_rows (i : Nat) (ts : List Char) (msgs : List Msg) :
    (drainRows i ts msgs).length = msgs.length ∧
    markerRowCount (drainRows i ts msgs) = failureCount msgs ∧
    drainStep i ts Msg.failure = [CsvField.none] := by
  refine ⟨?_, ?_, rfl⟩
  · induction msgs with
    | nil => rfl
    | cons m rest ih => simp [drainRows, ih]
  · induction msgs with
    | nil => rfl
    | cons m rest ih =>
      simp only [drainRows, markerRowCount, failureCount, List.countP_cons] at ih ⊢
      have hm : (decide (drainStep i ts m = [CsvField.none])) = decide (m = Msg.failure) := by
        cases m with
        | failure => simp [drainStep, toRow]
        | outcome o =>
          simp only [decide_eq_decide]
          constructor
          · intro h; exact absurd h (drainStep_outcome_ne_marker i ts o)
          · intro h; exact absurd h (by simp)
      rw [hm, ih]

/-- Coordinator phase within one iteration: before `spawn_workers`
returns (threads may still be enqueueing) or inside the drain loop. -/
inductive Phase
  | spawning
  | draining
deriving DecidableEq

/-- Coordinator state: current iteration index, phase, and the FIFO
content of the shared queue, every entry tagged with the iteration whose
worker produced it. -/
structure CoSt where
  iter : Nat
  phase : Phase
  queue : List (Nat × Msg)
deriving DecidableEq

/-- Events of a coordinator trace. -/
inductive CoEv
  | enq (i : Nat) (m : Msg)
  | barrier (i : Nat)
  | deq (i : Nat) (m : Msg)
  | drainEnd (i : Nat)
deriving DecidableEq

/-- One admissible step of the run, read off the source:
a worker of iteration `i` can enqueue only while iteration `i` is in its
spawning window, because `spawn_workers` (lines 128-133) starts all of
iteration `i`'s threads after the previous drain finished and `join`s
every one of them — and hence every `q.put` — before the main loop's
drain begins; `deq` pops the FIFO head (`q.get`, line 172); the drain
ends only when the queue is empty, since with all producers already
joined `q.get(timeout=...)` raises `queue.Empty` exactly when nothing is
queued, after which the next iteration starts. -/
def coStep (s : CoSt) (e : CoEv) : Option CoSt :=
  match e with
  | CoEv.enq i m =>
    if s.phase = Phase.spawning ∧ i = s.iter then
      some ⟨s.iter, Phase.spawning, s.queue ++ [(i, m)]⟩
    else none
  | CoEv.barrier i =>
    if s.phase = Phase.spawning ∧ i = s.iter then
      some ⟨s.iter, Phase.draining, s.queue⟩
    else none
  | CoEv.deq i m =>
    if s.phase = Phase.draining ∧ s.queue.head? = some (i, m) then
      some ⟨s.iter, Phase.draining, s.queue.tail⟩
    else none
  | CoEv.drainEnd i =>
    if s.phase = Phase.draining ∧ s.queue = [] ∧ i = s.iter then
      some ⟨s.iter + 1, Phase.spawning, []⟩
    else none

/-- Run a whole event list from a state. -/
def coRun (s : CoSt) : List CoEv → Option CoSt
  | [] => some s
  | e :: es =>
    match coStep s e with
    | some s' => coRun s' es
    | none => none

/-- The run's initial state: iteration 0, spawning, empty queue. -/
def initSt : CoSt := ⟨0, Phase.spawning, []⟩

/-- Test for an enqueue event of iteration `i`. -/
def isEnqFor (i : Nat) : CoEv → Bool
  | CoEv.enq j _ => j == i
  | _ => false

/-- Test for a dequeue event of a message produced by iteration `i`. -/
def isDeqFor (i : Nat) : CoEv → Bool
  | CoEv.deq j _ => j == i
  | _ => false

/-- Messages enqueued for iteration `i` in a trace. -/
def enqCount (i : Nat) (evs : List CoEv) : Nat := evs.countP (isEnqFor i)

/-- Messages drained that were produced by iteration `i`. -/
def deqCount (i : Nat) (evs : List CoEv) : Nat := evs.countP (isDeqFor i)

/-- Entries of the queue tagged with iteration `i`. -/
def tagCount (i : Nat) (q : List (Nat × Msg)) : Nat :=
  q.countP (fun p => p.1 == i)

theorem coRun_append (l₁ : List CoEv) :
    ∀ (s : CoSt) (l₂ : List CoEv),
      coRun s (l₁ ++ l₂) =
        match coRun s l₁ with
        | some s' => coRun s' l₂
        | none => none := by
  induction l₁ with
  | nil => intro s l₂; rfl
  | cons e es ih =>
    intro s l₂
    simp only [List.cons_append, coRun]
    cases coStep s e with
    | none => rfl
    | some s' => exact ih s' l₂

theorem enqCount_append (i : Nat) (l₁ l₂ : List CoEv) :
    enqCount i (l₁ ++ l₂) = enqCount i l₁ + enqCount i l₂ := by
  simp [enqCount, List.countP_append]

theorem deqCount_append (i : Nat) (l₁ l₂ : List CoEv) :
    deqCount i (l₁ ++ l₂) = deqCount i l₁ + deqCount i l₂ := by
  simp [deqCount, List.countP_append]

theorem tagCount_append (i : Nat) (q₁ q₂ : List (Nat × Msg)) :
    tagCount i (q₁ ++ q₂) = tagCount i q₁ + tagCount i q₂ := by
  simp [tagCount, List.countP_append]

theorem tagCount_cons (i : Nat) (p : Nat × Msg) (q : List (Nat × Msg)) :
    tagCount i (p :: q) = tagCount i q + (if p.1 = i then 1 else 0) := by
  simp only [tagCount, List.countP_cons]
  by_cases h : p.1 = i <;> simp [h]

theorem enqCount_single_enq (i j : Nat) (m : Msg) :
    enqCount i [CoEv.enq j m] = if j = i then 1 else 0 := by
  simp only [enqCount, List.countP_cons, List.countP_nil, isEnqFor]
  by_cases h : j = i <;> simp [h]

theorem deqCount_single_deq (i j : Nat) (m : Msg) :
    deqCount i [CoEv.deq j m] = if j = i then 1 else 0 := by
  simp only [deqCount, List.countP_cons, List.countP_nil, isDeqFor]
  by_cases h : j = i <;> simp [h]

theorem enqCount_single_other (i : Nat) (e : CoEv) (h : isEnqFor i e = false) :
    enqCount i [e] = 0 := by
  simp [enqCount, List.countP_cons, h]

theorem deqCount_single_other (i : Nat) (e : CoEv) (h : isDeqFor i e = false) :
    deqCount i [e] = 0 := by
  simp [deqCount, List.countP_cons, h]

/-- Run invariant: every queued entry is tagged with the current
iteration, and for each iteration the enqueue/dequeue counts of the
trace so far differ exactly by what is still queued. -/
def QInv (evs : List CoEv) (s : CoSt) : Prop :=
  (∀ p ∈ s.queue, p.1 = s.iter) ∧
  ∀ i, enqCount i evs = deqCount i evs + tagCount i s.queue

theorem coRun_inv (evs : List CoEv) :
    ∀ s, coRun initSt evs = some s → QInv evs s := by
  induction evs using List.reverseRecOn with
  | nil =>
    intro s h
    have hs : s = initSt := by simpa [coRun] using h.symm
    subst hs
    exact ⟨by intro p hp; exact absurd hp (List.not_mem_nil p), fun i => rfl⟩
  | append_singleton es e ih =>
    intro s h
    rw [coRun_append] at h
    rcases hrun : coRun initSt es with _ | s₁ <;> rw [hrun] at h
    · simp at h
    · simp only [coRun] at h
      rcases hstep : coStep s₁ e with _ | s₂ <;> rw [hstep] at h
      · simp at h
      · simp only [coRun, Option.some.injEq] at h
        subst h
        obtain ⟨htag, hcount⟩ := ih s₁ hrun
        cases e with
        | enq j m =>
          simp only [coStep] at hstep
          split_ifs at hstep with hc
          · obtain ⟨hph, hj⟩ := hc
            have hs2 : (⟨s₁.iter, Phase.spawning, s₁.queue ++ [(j, m)]⟩ : CoSt) = s₂ :=
              Option.some.inj hstep
            subst hs2
            constructor
            · show ∀ p ∈ s₁.queue ++ [(j, m)], p.1 = s₁.iter
              intro p hp
              rcases List.mem_append.mp hp with hmem | hmem
              · exact htag p hmem
              · have hpm : p = (j, m) := by simpa using hmem
                subst hpm
                exact hj
            · show ∀ i, enqCount i (es ++ [CoEv.enq j m]) =
                deqCount i (es ++ [CoEv.enq j m]) + tagCount i (s₁.queue ++ [(j, m)])
              intro i
              rw [enqCount_append, deqCount_append, tagCount_append,
                enqCount_single_enq, deqCount_single_other i (CoEv.enq j m) rfl]
              have htc : tagCount i [(j, m)] = if j = i then 1 else 0 := by
                simp only [tagCount, List.countP_cons, List.countP_nil]
                by_cases h : j = i <;> simp [h]
              rw [htc]
              have := hcount i
              by_cases hji : j = i
              · rw [if_pos hji]
                omega
              · rw [if_neg hji]
                omega
        | barrier j =>
          simp only [coStep] at hstep
          split_ifs at hstep with hc
          · have hs2 : (⟨s₁.iter, Phase.draining, s₁.queue⟩ : CoSt) = s₂ :=
              Option.some.inj hstep
            subst hs2
            constructor
            · show ∀ p ∈ s₁.queue, p.1 = s₁.iter
              exact htag
            · show ∀ i, enqCount i (es ++ [CoEv.barrier j]) =
                deqCount i (es ++ [CoEv.barrier j]) + tagCount i s₁.queue
              intro i
              rw [enqCount_append, deqCount_append,
                enqCount_single_other i (CoEv.barrier j) rfl,
                deqCount_single_other i (CoEv.barrier j) rfl]
              have := hcount i
              omega
        | deq j m =>
          simp only [coStep] at hstep
          split_ifs at hstep with hc
          · obtain ⟨hph, hhd⟩ := hc
            have hs2 : (⟨s₁.iter, Phase.draining, s₁.queue.tail⟩ : CoSt) = s₂ :=
              Option.some.inj hstep
            subst hs2
            rcases hq : s₁.queue with _ | ⟨p, rest⟩
            · rw [hq] at hhd; simp at hhd
            · rw [hq] at hhd
              simp only [List.head?_cons, Option.some.injEq] at hhd
              constructor
              · show ∀ p' ∈ rest, p'.1 = s₁.iter
                intro p' hp'
                exact htag p' (by rw [hq]; exact List.mem_cons_of_mem _ hp')
              · show ∀ i, enqCount i (es ++ [CoEv.deq j m]) =
                  deqCount i (es ++ [CoEv.deq j m]) + tagCount i rest
                intro i
                rw [enqCount_append, deqCount_append,
                  enqCount_single_other i (CoEv.deq j m) rfl, deqCount_single_deq]
                have hcnt := hcount i
                rw [hq, tagCount_cons] at hcnt
                have hfst : p.1 = j := by rw [hhd]
                rw [hfst] at hcnt
                by_cases hji : j = i
                · rw [if_pos hji] at hcnt ⊢
                  omega
                · rw [if_neg hji] at hcnt ⊢
                  omega
        | drainEnd j =>
          simp only [coStep] at hstep
          split_ifs at hstep with hc
          · obtain ⟨hph, hqe, hj⟩ := hc
            have hs2 : (⟨s₁.iter + 1, Phase.spawning, []⟩ : CoSt) = s₂ :=
              Option.some.inj hstep
            subst hs2
            constructor
            · show ∀ p ∈ ([] : List (Nat × Msg)), p.1 = s₁.iter + 1
              intro p hp
              exact absurd hp (List.not_mem_nil p)
            · show ∀ i, enqCount i (es ++ [CoEv.drainEnd j]) =
                deqCount i (es ++ [CoEv.drainEnd j]) + tagCount i []
              intro i
              rw [enqCount_append, deqCount_append,
                enqCount_single_other i (CoEv.drainEnd j) rfl,
                deqCount_single_other i (CoEv.drainEnd j) rfl]
              have hcnt := hcount i
              rw [hqe] at hcnt
              have hz : tagCount i ([] : List (Nat × Msg)) = 0 := rfl
              rw [hz] at hcnt ⊢
              omega

/-- C6: in every admissible run of the join-then-drain coordinator, at
the moment a message produced by iteration `j` is drained, every message
enqueued by any earlier iteration `i < j` has already been drained — no
outcome of a later iteration is consumed before all of an earlier
iteration's outcomes. -/
theorem c6_no_cross_iteration_drain (evs pre post : List CoEv) (s : CoSt)
    (j : Nat) (m : Msg)
    (hrun : coRun initSt evs = some s)
    (hsplit : evs = pre ++ CoEv.deq j m :: post) :
    ∀ i, i < j → enqCount i pre = deqCount i pre := by
  subst hsplit
  rw [coRun_append] at hrun
  rcases hpre : coRun initSt pre with _ | s₁ <;> rw [hpre] at hrun
  · simp at hrun
  · simp only [coRun] at hrun
    rcases hstep : coStep s₁ (CoEv.deq j m) with _ | s₂ <;> rw [hstep] at hrun
    · simp at hrun
    · obtain ⟨htag, hcount⟩ := coRun_inv pre s₁ hpre
      simp only [coStep] at hstep
      split_ifs at hstep with hc
      · obtain ⟨hph, hhd⟩ := hc
        rcases hq : s₁.queue with _ | ⟨p, rest⟩
        · rw [hq] at hhd; simp at hhd
        · rw [hq] at hhd
          simp only [List.head?_cons, Option.some.injEq] at hhd
          have hheadtag : p.1 = s₁.iter :=
            htag p (by rw [hq]; exact List.mem_cons_self p rest)
          have hj : j = s₁.iter := by
            rw [hhd] at hheadtag
            exact hheadtag
          intro i hij
          have hzero : tagCount i s₁.queue = 0 := by
            rw [hq, tagCount_cons]
            have h1 : tagCount i rest = 0 := by
              simp only [tagCount, List.countP_eq_zero]
              intro p' hp'
              have hp'tag : p'.1 = s₁.iter :=
                htag p' (by rw [hq]; exact List.mem_cons_of_mem _ hp')
              simp only [beq_iff_eq]
              omega
            have h2 : p.1 ≠ i := by
              rw [hheadtag]
              omega
            rw [h1, if_neg h2]
          have := hcount i
          rw [hzero] at this
          omega

/-- Trace used in the C6 witness: iteration 0 enqueues and fully drains
one message, then iteration 1 does the same. -/
def evs6 : List CoEv :=
  [CoEv.enq 0 Msg.failure, CoEv.barrier 0, CoEv.deq 0 Msg.failure, CoEv.drainEnd 0,
   CoEv.enq 1 Msg.failure, CoEv.barrier 1, CoEv.deq 1 Msg.failure]

/-- Prefix of `evs6` before its iteration-1 dequeue. -/
def pre6 : List CoEv :=
  [CoEv.enq 0 Msg.failure, CoEv.barrier 0, CoEv.deq 0 Msg.failure, CoEv.drainEnd 0,
   CoEv.enq 1 Msg.failure, CoEv.barrier 1]

/-- C6 witness: at the concrete trace's iteration-1 dequeue, iteration 0
is fully drained. -/
theorem c6_witness : enqCount 0 pre6 = deqCount 0 pre6 :=
  c6_no_cross_iteration_drain evs6 pre6 [] ⟨1, Phase.draining, []⟩ 1 Msg.failure
    (by decide) (by decide) 0 (by decide)

end HttpProbe
